import Mathlib

/-!
Shallow embedding of the chess engine sources
(`src/engine/piece.rs`, `src/engine/board.rs`, `src/engine/moves.rs`,
`src/engine/move_generation.rs`).

Rust `usize` arithmetic that can underflow, array indexing that can go out of
bounds, `Option::unwrap`, and explicit `panic!` calls are all modelled by the
`Res` monad below: a computation either returns a value (`Except.ok`) or
aborts (`Except.error Panic.aborted`).  All definitions follow the source
line by line; the few places where the source relies on items missing from
the given files (`Color::flip`, `PartialEq` on `Color`) are noted.
-/

/-- Abort marker: a Rust panic (usize underflow, out-of-bounds index,
`unwrap` on `None`, or an explicit `panic!`). -/
inductive Panic where
  | aborted
deriving DecidableEq

/-- Result type of potentially panicking Rust code. -/
abbrev Res (α : Type) : Type := Except Panic α

/-- Checked `usize` subtraction: Rust `a - b` aborts when `b > a`. -/
def checkedSub (a b : Nat) : Res Nat :=
  if b ≤ a then .ok (a - b) else .error .aborted

/-! ## piece.rs -/

/-- `Color` from piece.rs. -/
inductive Color where
  | White
  | Black
deriving DecidableEq

/-- Modelled from the spec: `Color::flip` is used by move_generation.rs
but its definition is not among the given source files; the spec says
"`flip()` returns the opposite". -/
def Color.flip : Color → Color
  | .White => .Black
  | .Black => .White

/-- `PieceKind` from piece.rs. -/
inductive PieceKind where
  | King
  | Queen
  | Rook
  | Bishop
  | Knight
  | Pawn
deriving DecidableEq

/-- `Piece` from piece.rs. -/
structure Piece where
  kind : PieceKind
  color : Color
deriving DecidableEq

/-- Lower-case FEN glyph of a piece kind (`impl Display for PieceKind`). -/
def PieceKind.glyph : PieceKind → Char
  | .King => 'k'
  | .Queen => 'q'
  | .Rook => 'r'
  | .Bishop => 'b'
  | .Knight => 'n'
  | .Pawn => 'p'

/-- `impl Display for Piece`: upper case for White, lower case for Black. -/
def Piece.display (p : Piece) : String :=
  match p.color with
  | .White => String.singleton p.kind.glyph.toUpper
  | .Black => String.singleton p.kind.glyph

/-- `impl FromStr for Piece`, on a single character. -/
def Piece.from_char (c : Char) : Option Piece :=
  match c with
  | 'K' => some ⟨.King, .White⟩
  | 'Q' => some ⟨.Queen, .White⟩
  | 'R' => some ⟨.Rook, .White⟩
  | 'B' => some ⟨.Bishop, .White⟩
  | 'N' => some ⟨.Knight, .White⟩
  | 'P' => some ⟨.Pawn, .White⟩
  | 'k' => some ⟨.King, .Black⟩
  | 'q' => some ⟨.Queen, .Black⟩
  | 'r' => some ⟨.Rook, .Black⟩
  | 'b' => some ⟨.Bishop, .Black⟩
  | 'n' => some ⟨.Knight, .Black⟩
  | 'p' => some ⟨.Pawn, .Black⟩
  | _ => none

/-! ## board.rs: Castle, Dir, Case -/

/-- `Castle` from board.rs. -/
structure Castle where
  white_king : Bool
  white_queen : Bool
  black_king : Bool
  black_queen : Bool
deriving DecidableEq

/-- `impl FromStr for Castle` (board.rs lines 22-42). -/
def Castle.from_chars (castle : Castle) : List Char → Option Castle
  | [] => some castle
  | c :: rest =>
    match c with
    | 'K' => Castle.from_chars { castle with white_king := true } rest
    | 'Q' => Castle.from_chars { castle with white_queen := true } rest
    | 'k' => Castle.from_chars { castle with black_king := true } rest
    | 'q' => Castle.from_chars { castle with black_queen := true } rest
    | _ => none

/-- `impl FromStr for Castle`: `"-"` gives no rights, otherwise each
character sets one right. -/
def Castle.from_str (s : String) : Option Castle :=
  if s = "-" then some ⟨false, false, false, false⟩
  else Castle.from_chars ⟨false, false, false, false⟩ s.data

/-- `impl Display for Castle` (board.rs lines 43-64), exactly as written in
the source: the subset string is emitted only when ALL four rights are set,
otherwise a hyphen. -/
def Castle.display (c : Castle) : String :=
  if !(c.black_queen && c.black_king && c.white_queen && c.white_king) then "-"
  else
    (if c.white_king then "K" else "") ++
    (if c.white_queen then "Q" else "") ++
    (if c.black_king then "k" else "") ++
    (if c.black_queen then "q" else "")

/-- `Dir` from board.rs. -/
inductive Dir where
  | Up
  | UpRight
  | Right
  | DownRight
  | Down
  | DownLeft
  | Left
  | UpLeft
  | Cav1
  | Cav2
  | Cav4
  | Cav5
  | Cav7
  | Cav8
  | Cav10
  | Cav11
deriving DecidableEq

/-- `Case` from board.rs: a square, wrapping the raw `usize` index. -/
structure Case where
  idx : Nat
deriving DecidableEq

/-- `Case::get_line`. -/
def Case.get_line (c : Case) : Nat := c.idx / 8

/-- `Case::get_column`. -/
def Case.get_column (c : Case) : Nat := c.idx % 8

/-- `Case::get_neighbour` (board.rs lines 110-177), exactly the source's
guards and offsets, including the wrong knight bounds and the `self.0 - 10`
offsets of `Cav10`/`Cav11` (which abort by usize underflow when the index is
below 10).  The `8 - distance` guard subtractions are checked as in Rust. -/
def Case.get_neighbour (c : Case) (dir : Dir) (distance : Nat) : Res (Option Case) :=
  match dir with
  | .Up =>
    match checkedSub 8 distance with
    | .error e => .error e
    | .ok lim => .ok (if c.get_line < lim then some ⟨c.idx + 8 * distance⟩ else none)
  | .UpRight =>
    match checkedSub 8 distance with
    | .error e => .error e
    | .ok lim =>
      .ok (if c.get_line < lim ∧ c.get_column < lim then some ⟨c.idx + 9 * distance⟩ else none)
  | .Right =>
    match checkedSub 8 distance with
    | .error e => .error e
    | .ok lim => .ok (if c.get_column < lim then some ⟨c.idx + 1 * distance⟩ else none)
  | .DownRight =>
    match checkedSub 8 distance with
    | .error e => .error e
    | .ok lim =>
      .ok (if c.get_line ≥ distance ∧ c.get_column < lim then some ⟨c.idx - 7 * distance⟩ else none)
  | .Down => .ok (if c.get_line ≥ distance then some ⟨c.idx - 8 * distance⟩ else none)
  | .DownLeft =>
    .ok (if c.get_line ≥ distance ∧ c.get_column ≥ distance then some ⟨c.idx - 9 * distance⟩ else none)
  | .Left => .ok (if c.get_column ≥ distance then some ⟨c.idx - 1 * distance⟩ else none)
  | .UpLeft =>
    match checkedSub 8 distance with
    | .error e => .error e
    | .ok lim =>
      .ok (if c.get_line < lim ∧ c.get_column ≥ distance then some ⟨c.idx + 7 * distance⟩ else none)
  | .Cav1 =>
    .ok (if c.get_line < 7 ∧ c.get_column < 8 then some ⟨c.idx + 17⟩ else none)
  | .Cav2 =>
    .ok (if c.get_line < 8 ∧ c.get_column < 7 then some ⟨c.idx + 10⟩ else none)
  | .Cav4 =>
    if c.get_line ≥ 1 ∧ c.get_column < 7 then
      match checkedSub c.idx 6 with
      | .error e => .error e
      | .ok i => .ok (some ⟨i⟩)
    else .ok none
  | .Cav5 =>
    if c.get_line ≥ 2 ∧ c.get_column < 8 then
      match checkedSub c.idx 15 with
      | .error e => .error e
      | .ok i => .ok (some ⟨i⟩)
    else .ok none
  | .Cav7 =>
    if c.get_line ≥ 2 ∧ c.get_column ≥ 1 then
      match checkedSub c.idx 17 with
      | .error e => .error e
      | .ok i => .ok (some ⟨i⟩)
    else .ok none
  | .Cav8 =>
    if c.get_line ≥ 1 ∧ c.get_column ≥ 2 then
      match checkedSub c.idx 10 with
      | .error e => .error e
      | .ok i => .ok (some ⟨i⟩)
    else .ok none
  | .Cav10 =>
    if c.get_line < 8 ∧ c.get_column ≥ 2 then
      match checkedSub c.idx 10 with
      | .error e => .error e
      | .ok i => .ok (some ⟨i⟩)
    else .ok none
  | .Cav11 =>
    if c.get_line < 7 ∧ c.get_column ≥ 1 then
      match checkedSub c.idx 10 with
      | .error e => .error e
      | .ok i => .ok (some ⟨i⟩)
    else .ok none

/-- `impl FromStr for Case` (board.rs lines 179-213), on the char list. -/
def Case.from_chars (chars : List Char) : Option Case :=
  match chars with
  | [c0, c1] =>
    match
      (match c0 with
       | 'a' => some 0 | 'b' => some 1 | 'c' => some 2 | 'd' => some 3
       | 'e' => some 4 | 'f' => some 5 | 'g' => some 6 | 'h' => some 7
       | _ => none),
      (match c1 with
       | '1' => some 0 | '2' => some 1 | '3' => some 2 | '4' => some 3
       | '5' => some 4 | '6' => some 5 | '7' => some 6 | '8' => some 7
       | _ => none) with
    | some col, some line => some ⟨col + line * 8⟩
    | _, _ => none
  | _ => none

/-- `impl FromStr for Case` on a string. -/
def Case.from_str (s : String) : Option Case := Case.from_chars s.data

/-- Decimal digits of a natural number, as in Rust's `{}` formatting. -/
def natToString (n : Nat) : String := ⟨Nat.toDigits 10 n⟩

/-- `impl Display for Case`: column letter then 1-based line number. -/
def Case.display (c : Case) : String :=
  (([ "a", "b", "c", "d", "e", "f", "g", "h" ].get? c.get_column).getD "")
    ++ natToString (c.get_line + 1)

/-! ## moves.rs -/

/-- `MoveKind` from moves.rs. -/
inductive MoveKind where
  | Quiet
  | DoublePawnPush
  | KingCastle
  | QueenCastle
  | SimpleCapture
  | EnPassantCapture
  | KnightPromotion
  | BishopPromotion
  | RookPromotion
  | QueenPromotion
  | KnightCapturePromotion
  | BishopCapturePromotion
  | RookCapturePromotion
  | QueenCapturePromotion
deriving DecidableEq

/-- `MoveFlags` from moves.rs.  The `SpecialFlag` union of the three
`repr(C)` fieldless enums is represented by its discriminant: `Quiet`,
`Simple` and `Knight` are 0; `DoublePawnPush`, `EnPassant` and `Bishop`
are 1; `KingCastle` and `Rook` are 2; `QueenCastle` and `Queen` are 3. -/
structure MoveFlags where
  capture : Bool
  promotion : Bool
  kind : Nat
deriving DecidableEq

/-- `impl From<MoveKind> for MoveFlags` (moves.rs lines 68-101). -/
def MoveFlags.fromKind : MoveKind → MoveFlags
  | .Quiet => ⟨false, false, 0⟩
  | .DoublePawnPush => ⟨false, false, 1⟩
  | .KingCastle => ⟨false, false, 2⟩
  | .QueenCastle => ⟨false, false, 3⟩
  | .SimpleCapture => ⟨true, false, 0⟩
  | .EnPassantCapture => ⟨true, false, 1⟩
  | .KnightPromotion => ⟨false, true, 0⟩
  | .BishopPromotion => ⟨false, true, 1⟩
  | .RookPromotion => ⟨false, true, 2⟩
  | .QueenPromotion => ⟨false, true, 3⟩
  | .KnightCapturePromotion => ⟨true, true, 0⟩
  | .BishopCapturePromotion => ⟨true, true, 1⟩
  | .RookCapturePromotion => ⟨true, true, 2⟩
  | .QueenCapturePromotion => ⟨true, true, 3⟩

/-- `impl Into<MoveKind> for MoveFlags` (moves.rs lines 102-141), reading
the union member selected by the two flags.  Discriminants other than 0-3
never arise from `MoveFlags.fromKind`; the catch-all arms mirror the fact
that such values are unconstructible in the source. -/
def MoveFlags.toKind (f : MoveFlags) : MoveKind :=
  match f.capture, f.promotion, f.kind with
  | false, false, 0 => .Quiet
  | false, false, 1 => .DoublePawnPush
  | false, false, 2 => .KingCastle
  | false, false, _ => .QueenCastle
  | true, false, 0 => .SimpleCapture
  | true, false, _ => .EnPassantCapture
  | false, true, 0 => .KnightPromotion
  | false, true, 1 => .BishopPromotion
  | false, true, 2 => .RookPromotion
  | false, true, _ => .QueenPromotion
  | true, true, 0 => .KnightCapturePromotion
  | true, true, 1 => .BishopCapturePromotion
  | true, true, 2 => .RookCapturePromotion
  | true, true, _ => .QueenCapturePromotion

/-- `MoveParseError` from moves.rs. -/
structure MoveParseError where
deriving DecidableEq

/-- `Move` from moves.rs.  The Rust fields `from` and `to` are named
`fromSq` and `toSq` because `from` is a reserved word in Lean. -/
structure Move where
  fromSq : Case
  toSq : Case
  flags : MoveFlags
deriving DecidableEq

/-- `Move::new`. -/
def Move.new (fromSq toSq : Case) (kind : MoveKind) : Move :=
  ⟨fromSq, toSq, MoveFlags.fromKind kind⟩

/-- `Move::is_capture`. -/
def Move.is_capture (m : Move) : Bool := m.flags.capture

/-- `Move::is_promotion`. -/
def Move.is_promotion (m : Move) : Bool := m.flags.promotion

/-- `Move::get_kind`. -/
def Move.get_kind (m : Move) : MoveKind := m.flags.toKind

/-- `impl FromStr for Move` (moves.rs lines 291-310).  Rust slices the
string as bytes: `s[0..2]` aborts when the length is below 2, and
`s[2..4]` aborts when it is below 4; the slices are parsed in that order,
with a parse failure surfacing as `Err(MoveParseError)` before the next
slice is taken.  A 5th character outside `qnbr` is a parse error; any
other length of at least 4 falls through to `Ok` with kind `Quiet`. -/
def Move.from_str (s : String) : Res (Except MoveParseError Move) :=
  let chars := s.data
  if chars.length < 2 then .error .aborted
  else
    match Case.from_chars (chars.take 2) with
    | none => .ok (.error ⟨⟩)
    | some fromSq =>
      if chars.length < 4 then .error .aborted
      else
        match Case.from_chars ((chars.drop 2).take 2) with
        | none => .ok (.error ⟨⟩)
        | some toSq =>
          if chars.length = 5 then
            match chars.get? 4 with
            | some 'q' => .ok (.ok (Move.new fromSq toSq .QueenPromotion))
            | some 'n' => .ok (.ok (Move.new fromSq toSq .KnightPromotion))
            | some 'b' => .ok (.ok (Move.new fromSq toSq .BishopPromotion))
            | some 'r' => .ok (.ok (Move.new fromSq toSq .RookPromotion))
            | _ => .ok (.error ⟨⟩)
          else .ok (.ok (Move.new fromSq toSq .Quiet))

/-! ## board.rs: Board, FEN codec, apply_move -/

/-- `Board` from board.rs.  The `[Option<Piece>; 64]` array is a list of
length 64; the `u32` clocks are natural numbers whose increments are
range-checked like Rust debug arithmetic. -/
structure Board where
  board : List (Option Piece)
  side : Color
  castle : Castle
  en_passant : Option Case
  halfmove : Nat
  moves : Nat
deriving DecidableEq

/-- Array read `self.board[i]` (`impl Index for Board`): out-of-bounds
aborts.  In Rust the array always has 64 slots, so only the squares the
broken knight offsets fabricate can be out of bounds. -/
def Board.getIdx (b : Board) (i : Nat) : Res (Option Piece) :=
  match b.board.get? i with
  | some v => .ok v
  | none => .error .aborted

/-- Array read through a `Case` index. -/
def Board.getCase (b : Board) (c : Case) : Res (Option Piece) :=
  b.getIdx c.idx

/-- Array write `self.board[i] = v`: out-of-bounds aborts. -/
def Board.setIdx (b : Board) (i : Nat) (v : Option Piece) : Res Board :=
  if i < b.board.length then .ok { b with board := b.board.set i v }
  else .error .aborted

/-- Array write through a `Case` index. -/
def Board.setCase (b : Board) (c : Case) (v : Option Piece) : Res Board :=
  b.setIdx c.idx v

/-- `Board::new_empty_board` (board.rs lines 369-376): note the castle
string `"QKqk"`, which sets all four rights. -/
def Board.new_empty_board : Board :=
  { board := List.replicate 64 none
    side := .White
    castle := ⟨true, true, true, true⟩
    en_passant := none
    halfmove := 0
    moves := 1 }

/-- Rust `str::split` on a single character, over the char list: `n`
separators yield `n+1` (possibly empty) pieces. -/
def splitChar (sep : Char) : List Char → List (List Char)
  | [] => [[]]
  | c :: rest =>
    let r := splitChar sep rest
    if c = sep then [] :: r
    else
      match r with
      | h :: t => (c :: h) :: t
      | [] => [[c]]

/-- `char::to_digit(10)`. -/
def charDigit (c : Char) : Option Nat :=
  if 48 ≤ c.toNat ∧ c.toNat ≤ 57 then some (c.toNat - 48) else none

/-- `u32::from_str`: an optional leading `+`, then at least one digit,
and the value must fit in 32 bits. -/
def parse_u32 (chars : List Char) : Option Nat :=
  let t := match chars with
    | '+' :: rest => rest
    | l => l
  if t.length > 0 ∧ t.all (fun c => (charDigit c).isSome) then
    let n := t.foldl (fun acc c => acc * 10 + ((charDigit c).getD 0)) 0
    if n < 4294967296 then some n else none
  else none

/-- One rank group of the FEN placement field (the inner loop of
`impl FromStr for Board`, board.rs lines 329-339): a digit advances the
column by its value, any other char must parse as a piece glyph and is
written at `col + 8*(7-l)`.  `7 - l` underflows for a ninth group and the
write goes out of bounds when the group is too wide; both abort in Rust
and yield `none` here. -/
def place_line (board : List (Option Piece)) (l : Nat) : List Char → Nat → Option (List (Option Piece))
  | [], _ => some board
  | c :: rest, col =>
    match charDigit c with
    | some num => place_line board l rest (col + num)
    | none =>
      match Piece.from_char c with
      | none => none
      | some p =>
        if l ≤ 7 ∧ col + 8 * (7 - l) < 64 then
          place_line (board.set (col + 8 * (7 - l)) (some p)) l rest (col + 1)
        else none

/-- All rank groups of the placement field (`for (l, line) in
split_fen[0].split('/').enumerate()`). -/
def place_lines (board : List (Option Piece)) : List (List Char) → Nat → Option (List (Option Piece))
  | [], _ => some board
  | line :: rest, l =>
    match place_line board l line 0 with
    | none => none
    | some board' => place_lines board' rest (l + 1)

/-- `impl FromStr for Board` (board.rs lines 317-366): exactly six
space-separated fields, starting from `new_empty_board` and overwriting
every component.  Any parse error or abort yields `none`. -/
def Board.from_fen (fen : String) : Option Board :=
  match splitChar ' ' fen.data with
  | [f0, f1, f2, f3, f4, f5] =>
    match place_lines Board.new_empty_board.board (splitChar '/' f0) 0 with
    | none => none
    | some brd =>
      match
        (match f1 with
         | ['w'] => some Color.White
         | ['b'] => some Color.Black
         | _ => none) with
      | none => none
      | some side =>
        match Castle.from_str ⟨f2⟩ with
        | none => none
        | some castle =>
          match (if f3 = ['-'] then some none else (Case.from_chars f3).map some) with
          | none => none
          | some ep =>
            match parse_u32 f4 with
            | none => none
            | some halfmove =>
              match parse_u32 f5 with
              | none => none
              | some moves =>
                some { board := brd, side := side, castle := castle,
                       en_passant := ep, halfmove := halfmove, moves := moves }
  | _ => none

/-- One rank of `Board::to_fen` (board.rs lines 391-410): pieces become
glyphs, runs of empty squares become digits, and the rank ends with `/`. -/
def fen_row (b : Board) (line : Nat) : String :=
  let step := fun (acc : String × Nat) (col : Nat) =>
    match (b.board.get? (col + 8 * line)).getD none with
    | some piece =>
      if acc.2 ≠ 0 then (acc.1 ++ natToString acc.2 ++ piece.display, 0)
      else (acc.1 ++ piece.display, 0)
    | none => (acc.1, acc.2 + 1)
  let res := (List.range 8).foldl step ("", 0)
  match res.2 with
  | 0 => res.1 ++ "/"
  | val => res.1 ++ natToString val ++ "/"

/-- `impl Display for Color`. -/
def Color.display : Color → String
  | .White => "w"
  | .Black => "b"

/-- `Board::to_fen` (board.rs lines 389-421): the eight ranks from line 7
down to line 0, the trailing `/` popped, then side, castle (via the
`Display` in `Castle.display`), en passant, halfmove and move number. -/
def Board.to_fen (b : Board) : String :=
  let placement := ((List.range 8).reverse.map (fen_row b)).foldl (· ++ ·) ""
  let placement := placement.dropRight 1
  placement ++ " " ++ b.side.display ++ " " ++ b.castle.display ++ " " ++
    (match b.en_passant with
     | some case => case.display
     | none => "-") ++
    " " ++ natToString b.halfmove ++ " " ++ natToString b.moves

/-- Checked `u32` increment: Rust debug arithmetic aborts at `u32::MAX`. -/
def u32succ (n : Nat) : Res Nat :=
  if n + 1 < 4294967296 then .ok (n + 1) else .error .aborted

/-- The common `new[&mv.to] = new[&mv.from]; new[&mv.from] = None`
sequence of `Board::apply_move`. -/
def Board.move_piece (b : Board) (fromSq toSq : Case) : Res Board :=
  match b.getCase fromSq with
  | .error e => .error e
  | .ok v =>
    match b.setCase toSq v with
    | .error e => .error e
    | .ok b1 => b1.setCase fromSq none

/-- Promotion branch of `Board::apply_move`: place a piece of the promoted
kind with the colour read from `new[&mv.from].unwrap()`, then clear the
origin. -/
def Board.promote (b : Board) (mv : Move) (kind : PieceKind) : Res Board :=
  match b.getCase mv.fromSq with
  | .error e => .error e
  | .ok none => .error .aborted
  | .ok (some p) =>
    match b.setCase mv.toSq (some ⟨kind, p.color⟩) with
    | .error e => .error e
    | .ok b1 => b1.setCase mv.fromSq none

/-- `Board::apply_move` (board.rs lines 424-510), branch by branch:
kind-specific board surgery, then the halfmove clock (reset only when
`mv.is_capture()`, incremented otherwise), then the side flip with the
move counter incremented after Black's move.  Castling rights and the
en-passant field are left untouched except for the `DoublePawnPush`
branch, exactly as in the source. -/
def Board.apply_move (b : Board) (mv : Move) : Res Board :=
  let branch : Res Board :=
    match mv.get_kind with
    | .DoublePawnPush =>
      match b.move_piece mv.fromSq mv.toSq with
      | .error e => .error e
      | .ok b1 =>
        match mv.fromSq.get_line with
        | 1 =>
          match mv.fromSq.get_neighbour .Up 1 with
          | .error e => .error e
          | .ok o => .ok { b1 with en_passant := o }
        | 6 =>
          match mv.fromSq.get_neighbour .Down 1 with
          | .error e => .error e
          | .ok o => .ok { b1 with en_passant := o }
        | _ => .error .aborted
    | .KingCastle =>
      match b.getCase mv.fromSq with
      | .error e => .error e
      | .ok king =>
        match b.setCase mv.toSq king with
        | .error e => .error e
        | .ok b1 =>
          match mv.toSq.get_neighbour .Left 1 with
          | .error e => .error e
          | .ok none => .error .aborted
          | .ok (some rock_target) =>
            match mv.toSq.get_neighbour .Right 1 with
            | .error e => .error e
            | .ok none => .error .aborted
            | .ok (some rock_source) =>
              match b1.getCase rock_source with
              | .error e => .error e
              | .ok rook =>
                match b1.setCase rock_target rook with
                | .error e => .error e
                | .ok b2 =>
                  match b2.setCase mv.fromSq none with
                  | .error e => .error e
                  | .ok b3 => b3.setCase rock_source none
    | .QueenCastle =>
      match b.getCase mv.fromSq with
      | .error e => .error e
      | .ok king =>
        match b.setCase mv.toSq king with
        | .error e => .error e
        | .ok b1 =>
          match mv.toSq.get_neighbour .Right 1 with
          | .error e => .error e
          | .ok none => .error .aborted
          | .ok (some rock_target) =>
            match mv.toSq.get_neighbour .Left 2 with
            | .error e => .error e
            | .ok none => .error .aborted
            | .ok (some rock_source) =>
              match b1.getCase rock_source with
              | .error e => .error e
              | .ok rook =>
                match b1.setCase rock_target rook with
                | .error e => .error e
                | .ok b2 =>
                  match b2.setCase mv.fromSq none with
                  | .error e => .error e
                  | .ok b3 => b3.setCase rock_source none
    | .EnPassantCapture =>
      match b.move_piece mv.fromSq mv.toSq with
      | .error e => .error e
      | .ok b1 =>
        match mv.toSq.get_line with
        | 2 =>
          match mv.toSq.get_neighbour .Up 1 with
          | .error e => .error e
          | .ok none => .error .aborted
          | .ok (some taken) => b1.setCase taken none
        | 5 =>
          match mv.toSq.get_neighbour .Down 1 with
          | .error e => .error e
          | .ok none => .error .aborted
          | .ok (some taken) => b1.setCase taken none
        | _ => .error .aborted
    | .KnightPromotion => b.promote mv .Knight
    | .BishopPromotion => b.promote mv .Bishop
    | .RookPromotion => b.promote mv .Rook
    | .QueenPromotion => b.promote mv .Queen
    | .KnightCapturePromotion => b.promote mv .Knight
    | .BishopCapturePromotion => b.promote mv .Bishop
    | .RookCapturePromotion => b.promote mv .Rook
    | .QueenCapturePromotion => b.promote mv .Queen
    | _ => b.move_piece mv.fromSq mv.toSq
  match branch with
  | .error e => .error e
  | .ok nb =>
    match (if mv.is_capture then .ok 0 else u32succ nb.halfmove : Res Nat) with
    | .error e => .error e
    | .ok h =>
      let nb := { nb with halfmove := h }
      match b.side with
      | .White => .ok { nb with side := .Black }
      | .Black =>
        match u32succ nb.moves with
        | .error e => .error e
        | .ok m => .ok { nb with side := .White, moves := m }

deriving instance DecidableEq for Except

/-! ## move_generation.rs -/

/-- `Board::is_adversary` (move_generation.rs lines 283-289). -/
def Board.is_adversary (b : Board) (case : Case) (color : Color) : Res Bool :=
  match b.getCase case with
  | .error e => .error e
  | .ok (some piece) => .ok (decide (piece.color ≠ color))
  | .ok none => .ok false

/-- The `while let` loop of `Board::all_moves_in_dir` (move_generation.rs
lines 262-280): walk outward from `dist`, emitting `Quiet` on empty
squares, `SimpleCapture` on an enemy piece, stopping on any piece or at
`dist == max`.  The fuel argument equals the remaining iterations and the
top-level wrapper passes `max`, which bounds the loop exactly. -/
def Board.all_moves_in_dir_aux (b : Board) (fromSq : Case) (dir : Dir) (max : Nat) :
    Nat → Nat → Res (List Move)
  | _, 0 => .ok []
  | dist, fuel + 1 =>
    match fromSq.get_neighbour dir dist with
    | .error e => .error e
    | .ok none => .ok []
    | .ok (some toC) =>
      match b.getCase toC with
      | .error e => .error e
      | .ok (some piece) =>
        if piece.color ≠ b.side then .ok [Move.new fromSq toC .SimpleCapture] else .ok []
      | .ok none =>
        if dist = max then .ok [Move.new fromSq toC .Quiet]
        else
          match b.all_moves_in_dir_aux fromSq dir max (dist + 1) fuel with
          | .error e => .error e
          | .ok rest => .ok (Move.new fromSq toC .Quiet :: rest)

/-- `Board::all_moves_in_dir`. -/
def Board.all_moves_in_dir (b : Board) (fromSq : Case) (dir : Dir) (max : Nat) : Res (List Move) :=
  b.all_moves_in_dir_aux fromSq dir max 1 max

/-- `Board::moves_for_dir` (move_generation.rs lines 254-259): concatenate
the rays of each direction in order. -/
def Board.moves_for_dir (b : Board) (case : Case) (dirs : List Dir) (max : Nat) : Res (List Move) :=
  match dirs with
  | [] => .ok []
  | d :: rest =>
    match b.all_moves_in_dir case d max with
    | .error e => .error e
    | .ok l =>
      match b.moves_for_dir case rest max with
      | .error e => .error e
      | .ok ls => .ok (l ++ ls)

/-- `Board::pawn_quiet_moves` (move_generation.rs lines 113-137): simple
push (promoting on the last line) and the double push from the start line.
The front square is obtained by `.unwrap()`, which aborts for a pawn on its
own back rank. -/
def Board.pawn_quiet_moves (b : Board) (case : Case) : Res (List Move) :=
  let (front, start_line, promotion_line) :=
    match b.side with
    | Color.White => (Dir.Up, 1, 7)
    | Color.Black => (Dir.Down, 6, 0)
  match case.get_neighbour front 1 with
  | .error e => .error e
  | .ok none => .error .aborted
  | .ok (some front_case) =>
    match b.getCase front_case with
    | .error e => .error e
    | .ok (some _) => .ok []
    | .ok none =>
      let first :=
        if front_case.get_line = promotion_line then
          [Move.new case front_case .QueenPromotion,
           Move.new case front_case .BishopPromotion,
           Move.new case front_case .RookPromotion,
           Move.new case front_case .KnightPromotion]
        else [Move.new case front_case .Quiet]
      if case.get_line = start_line then
        match case.get_neighbour front 2 with
        | .error e => .error e
        | .ok none => .error .aborted
        | .ok (some two_case) =>
          match b.getCase two_case with
          | .error e => .error e
          | .ok none => .ok (first ++ [Move.new case two_case .DoublePawnPush])
          | .ok (some _) => .ok first
      else .ok first

/-- `Board::get_pawn_control_case` (move_generation.rs lines 140-153): the
two forward diagonals of the pawn on `case` (by the piece's own colour),
front-right pushed first; `self[case].unwrap()` aborts on an empty square. -/
def Board.get_pawn_control_case (b : Board) (case : Case) : Res (List Case) :=
  match b.getCase case with
  | .error e => .error e
  | .ok none => .error .aborted
  | .ok (some piece) =>
    let (front_left, front_right) :=
      match piece.color with
      | Color.White => (Dir.UpLeft, Dir.UpRight)
      | Color.Black => (Dir.DownLeft, Dir.DownRight)
    match case.get_neighbour front_right 1 with
    | .error e => .error e
    | .ok r =>
      match case.get_neighbour front_left 1 with
      | .error e => .error e
      | .ok l => .ok (r.toList ++ l.toList)

/-- One diagonal of `Board::pawn_attack_moves` (the body of the `for` loop
at move_generation.rs lines 162-180): a capture (promoting on the last
line) when an adversary stands there, plus an `EnPassantCapture` when the
diagonal equals the en-passant target. -/
def Board.pawn_attack_side (b : Board) (case : Case) (side : Dir) (promotion_line : Nat) :
    Res (List Move) :=
  match case.get_neighbour side 1 with
  | .error e => .error e
  | .ok none => .ok []
  | .ok (some target) =>
    match b.is_adversary target b.side with
    | .error e => .error e
    | .ok adv =>
      let l1 :=
        if adv then
          if target.get_line = promotion_line then
            [Move.new case target .QueenCapturePromotion,
             Move.new case target .BishopCapturePromotion,
             Move.new case target .RookCapturePromotion,
             Move.new case target .KnightCapturePromotion]
          else [Move.new case target .SimpleCapture]
        else []
      let l2 :=
        match b.en_passant with
        | some ep => if target = ep then [Move.new case target .EnPassantCapture] else []
        | none => []
      .ok (l1 ++ l2)

/-- `Board::pawn_attack_moves` (move_generation.rs lines 155-182):
front-left diagonal first, then front-right. -/
def Board.pawn_attack_moves (b : Board) (case : Case) : Res (List Move) :=
  let (front_left, front_right, promotion_line) :=
    match b.side with
    | Color.White => (Dir.UpLeft, Dir.UpRight, 7)
    | Color.Black => (Dir.DownLeft, Dir.DownRight, 0)
  match b.pawn_attack_side case front_left promotion_line with
  | .error e => .error e
  | .ok l =>
    match b.pawn_attack_side case front_right promotion_line with
    | .error e => .error e
    | .ok r => .ok (l ++ r)

/-- `Board::get_attack_move_for_case` (move_generation.rs lines 60-110):
`None` for an empty or enemy square, otherwise the per-kind dispatch with
the direction lists and maximal distances written in the source (the
knight list uses the broken `Cav` directions with distance 1). -/
def Board.get_attack_move_for_case (b : Board) (case : Case) : Res (Option (List Move)) :=
  match b.getCase case with
  | .error e => .error e
  | .ok none => .ok none
  | .ok (some piece) =>
    if piece.color ≠ b.side then .ok none
    else
      let movesR : Res (List Move) :=
        match piece.kind with
        | .Queen =>
          b.moves_for_dir case
            [.Up, .UpLeft, .UpRight, .Right, .Left, .DownLeft, .DownRight, .Down] 8
        | .Rook => b.moves_for_dir case [.Up, .Right, .Left, .Down] 8
        | .Bishop => b.moves_for_dir case [.UpLeft, .UpRight, .DownLeft, .DownRight] 8
        | .Knight =>
          b.moves_for_dir case
            [.Cav1, .Cav2, .Cav4, .Cav5, .Cav7, .Cav8, .Cav10, .Cav11] 1
        | .King =>
          b.moves_for_dir case
            [.Up, .UpLeft, .UpRight, .Right, .Left, .DownLeft, .DownRight, .Down] 1
        | .Pawn => b.pawn_attack_moves case
      match movesR with
      | .error e => .error e
      | .ok moves => .ok (some moves)

/-- The `(0..64)` scan of `Board::get_attacked_case` (move_generation.rs
lines 32-39): collect the `to` squares of every pseudo-legal attack move,
case by case.  `n` counts the remaining cases. -/
def Board.attacked_aux (b : Board) : Nat → Nat → Res (List Case)
  | _, 0 => .ok []
  | i, n + 1 =>
    match b.get_attack_move_for_case ⟨i⟩ with
    | .error e => .error e
    | .ok none => b.attacked_aux (i + 1) n
    | .ok (some l) =>
      match b.attacked_aux (i + 1) n with
      | .error e => .error e
      | .ok rest => .ok (l.map (·.toSq) ++ rest)

/-- `Board::get_attacked_case`: clone the board, force `side` to the given
colour, and collect attack targets over all 64 cases.  The `HashSet` the
caller builds is modelled by list membership. -/
def Board.get_attacked_case (b : Board) (color : Color) : Res (List Case) :=
  ({ b with side := color }).attacked_aux 0 64

/-- The `(0..64)` scan of `Board::get_pawn_controled_cases`
(move_generation.rs lines 241-251): for every pawn of the given colour,
append its control cases. -/
def Board.pawn_controled_aux (b : Board) (color : Color) : Nat → Nat → Res (List Case)
  | _, 0 => .ok []
  | i, n + 1 =>
    match b.getIdx i with
    | .error e => .error e
    | .ok cell =>
      let own : Bool :=
        match cell with
        | some piece => piece.kind = PieceKind.Pawn && piece.color = color
        | none => false
      if own then
        match b.get_pawn_control_case ⟨i⟩ with
        | .error e => .error e
        | .ok l =>
          match b.pawn_controled_aux color (i + 1) n with
          | .error e => .error e
          | .ok rest => .ok (l ++ rest)
      else b.pawn_controled_aux color (i + 1) n

/-- `Board::get_pawn_controled_cases`. -/
def Board.get_pawn_controled_cases (b : Board) (color : Color) : Res (List Case) :=
  b.pawn_controled_aux color 0 64

/-- `Board::get_controled_cases` (move_generation.rs lines 234-238): the
attacked cases extended with the pawn-controlled cases (set union,
modelled as concatenation: only membership is ever used). -/
def Board.get_controled_cases (b : Board) (color : Color) : Res (List Case) :=
  match b.get_attacked_case color with
  | .error e => .error e
  | .ok attacked =>
    match b.get_pawn_controled_cases color with
    | .error e => .error e
    | .ok pawns => .ok (attacked ++ pawns)

/-- `Board::castle_move` (move_generation.rs lines 185-229): per-side
king/queen castle squares and rights, the two early returns, the
occupancy downgrade of `can_king`/`can_queen`, then the attacked-cases
test on origin, transit and destination. -/
def Board.castle_move (b : Board) : Res (List Move) :=
  let (k0, k1, k2, q0, q1, q2, q3, ck0, cq0) :=
    match b.side with
    | Color.White =>
      (Case.mk 4, Case.mk 5, Case.mk 6, Case.mk 4, Case.mk 3, Case.mk 2, Case.mk 1,
       b.castle.white_king, b.castle.white_queen)
    | Color.Black =>
      (Case.mk 60, Case.mk 61, Case.mk 62, Case.mk 60, Case.mk 59, Case.mk 58, Case.mk 57,
       b.castle.black_king, b.castle.black_queen)
  if !ck0 && !cq0 then .ok []
  else
    match b.getCase k1, b.getCase k2, b.getCase q1, b.getCase q2, b.getCase q3 with
    | .ok ok1, .ok ok2, .ok oq1, .ok oq2, .ok oq3 =>
      let ck := ck0 && ok1.isNone && ok2.isNone
      let cq := cq0 && oq1.isNone && oq2.isNone && oq3.isNone
      if !ck && !cq then .ok []
      else
        match b.get_controled_cases b.side.flip with
        | .error e => .error e
        | .ok attacked_cases =>
          let mv1 :=
            if ck ∧ k0 ∉ attacked_cases ∧ k1 ∉ attacked_cases ∧ k2 ∉ attacked_cases then
              [Move.new k0 k2 .KingCastle]
            else []
          let mv2 :=
            if cq ∧ q0 ∉ attacked_cases ∧ q1 ∉ attacked_cases ∧ q2 ∉ attacked_cases then
              [Move.new q0 q2 .QueenCastle]
            else []
          .ok (mv1 ++ mv2)
    | _, _, _, _, _ => .error .aborted

/-- The search loop of `Board::get_kind_pos` (move_generation.rs lines
292-301): first king of the colour in index order, `panic!` when none is
found. -/
def Board.get_kind_pos_aux (b : Board) (color : Color) : Nat → Nat → Res Case
  | _, 0 => .error .aborted
  | i, n + 1 =>
    match b.getIdx i with
    | .error e => .error e
    | .ok (some piece) =>
      if piece.kind = PieceKind.King ∧ piece.color = color then .ok ⟨i⟩
      else b.get_kind_pos_aux color (i + 1) n
    | .ok none => b.get_kind_pos_aux color (i + 1) n

/-- `Board::get_kind_pos`. -/
def Board.get_kind_pos (b : Board) (color : Color) : Res Case :=
  b.get_kind_pos_aux color 0 64

/-- `Board::is_move_legal` (move_generation.rs lines 23-29): apply the
move, compute the cases attacked by the new side to move, and require the
king of the side that just moved not to be among them. -/
def Board.is_move_legal (b : Board) (mv : Move) : Res Bool :=
  match b.apply_move mv with
  | .error e => .error e
  | .ok new_board =>
    match new_board.get_attacked_case new_board.side with
    | .error e => .error e
    | .ok attacked_case =>
      match new_board.get_kind_pos new_board.side.flip with
      | .error e => .error e
      | .ok king_pos => .ok (decide (king_pos ∉ attacked_case))

/-- `Board::get_moves_for_case` (move_generation.rs lines 42-57): `None`
for an empty or enemy square; for an own piece, the castle moves (king) or
quiet pawn moves (pawn) followed by the attack moves, whose `Option` is
`.unwrap()`ed. -/
def Board.get_moves_for_case (b : Board) (case : Case) : Res (Option (List Move)) :=
  match b.getCase case with
  | .error e => .error e
  | .ok none => .ok none
  | .ok (some piece) =>
    if piece.color ≠ b.side then .ok none
    else
      let movesR : Res (List Move) :=
        match piece.kind with
        | PieceKind.King => b.castle_move
        | PieceKind.Pawn => b.pawn_quiet_moves case
        | _ => .ok []
      match movesR with
      | .error e => .error e
      | .ok moves =>
        match b.get_attack_move_for_case case with
        | .error e => .error e
        | .ok none => .error .aborted
        | .ok (some att) => .ok (some (moves ++ att))

/-- The `(0..64).filter_map(...).flatten()` part of `Board::get_moves`:
pseudo-legal moves of all cases in index order. -/
def Board.pseudo_aux (b : Board) : Nat → Nat → Res (List Move)
  | _, 0 => .ok []
  | i, n + 1 =>
    match b.get_moves_for_case ⟨i⟩ with
    | .error e => .error e
    | .ok none => b.pseudo_aux (i + 1) n
    | .ok (some l) =>
      match b.pseudo_aux (i + 1) n with
      | .error e => .error e
      | .ok rest => .ok (l ++ rest)

/-- All pseudo-legal moves of the side to move. -/
def Board.pseudo_moves (b : Board) : Res (List Move) :=
  b.pseudo_aux 0 64

/-- The `.filter(|mv| self.is_move_legal(mv))` part of `Board::get_moves`. -/
def Board.filter_legal (b : Board) : List Move → Res (List Move)
  | [] => .ok []
  | mv :: rest =>
    match b.is_move_legal mv with
    | .error e => .error e
    | .ok keep =>
      match b.filter_legal rest with
      | .error e => .error e
      | .ok l => .ok (if keep then mv :: l else l)

/-- `Board::get_moves` (move_generation.rs lines 14-20).  The Rust
iterator chain interleaves generation and the legality filter lazily;
since the only effect is the abort, whose value carries no data, the
staged composition below is observationally identical. -/
def Board.get_moves (b : Board) : Res (List Move) :=
  match b.pseudo_moves with
  | .error e => .error e
  | .ok ps => b.filter_legal ps

/-- `sub_perft` (move_generation.rs lines 324-333): the recursive
node-count.  The inner loop over the move list is the nested recursion. -/
def Board.sub_perft : Nat → Board → Res Nat
  | 0, _ => .ok 1
  | d + 1, b =>
    match b.get_moves with
    | .error e => .error e
    | .ok mvs =>
      let results : List (Res Nat) := mvs.map (fun m =>
        match b.apply_move m with
        | .error e => .error e
        | .ok nb => Board.sub_perft d nb)
      results.foldl
        (fun acc r =>
          match acc, r with
          | .ok a, .ok n => .ok (a + n)
          | .error e, _ => .error e
          | .ok _, .error e => .error e)
        (.ok 0)

/-! ## Derived definitions used by the claims -/

/-- The canonical starting FEN. -/
def startFen : String := "rnbqkbnr/pppppppp/8/8/8/8/PPPPPPPP/RNBQKBNR w KQkq - 0 1"

/-- Squares in `cases` all empty on `b`. -/
def empty_cases (b : Board) (cases : List Case) : Bool :=
  cases.all fun c => decide (b.getCase c = .ok none)

/-- Squares in `cases` all absent from the opponent's controlled cases
(the predicate `Board::castle_move` tests, built from
`Board::get_controled_cases` with the flipped side). -/
def unattacked_by_opponent (b : Board) (cases : List Case) : Bool :=
  match b.get_controled_cases b.side.flip with
  | .ok attacked => cases.all fun c => decide (c ∉ attacked)
  | .error _ => false

/-- The castling preconditions claimed for a castle move of kind `k`
emitted for the side to move of `b`: right set, between-squares empty,
and origin, transit and destination unattacked by the opponent. -/
def castle_preconditions (b : Board) (k : MoveKind) : Bool :=
  match b.side, k with
  | Color.White, MoveKind.KingCastle =>
    b.castle.white_king && empty_cases b [⟨5⟩, ⟨6⟩] &&
      unattacked_by_opponent b [⟨4⟩, ⟨5⟩, ⟨6⟩]
  | Color.White, MoveKind.QueenCastle =>
    b.castle.white_queen && empty_cases b [⟨1⟩, ⟨2⟩, ⟨3⟩] &&
      unattacked_by_opponent b [⟨4⟩, ⟨3⟩, ⟨2⟩]
  | Color.Black, MoveKind.KingCastle =>
    b.castle.black_king && empty_cases b [⟨61⟩, ⟨62⟩] &&
      unattacked_by_opponent b [⟨60⟩, ⟨61⟩, ⟨62⟩]
  | Color.Black, MoveKind.QueenCastle =>
    b.castle.black_queen && empty_cases b [⟨57⟩, ⟨58⟩, ⟨59⟩] &&
      unattacked_by_opponent b [⟨60⟩, ⟨59⟩, ⟨58⟩]
  | _, _ => true

/-- Board with both kings, all four rooks on their home squares and all
castling rights, used to exercise `apply_move`'s treatment of rights. -/
def rookKingBoard : Board :=
  (Board.from_fen "r3k2r/8/8/8/8/8/8/R3K2R w KQkq - 0 1").getD Board.new_empty_board

/-- Board with a stale en-passant target square e3 and Black to move. -/
def epBoard : Board :=
  (Board.from_fen "4k3/8/8/8/8/8/4P3/4K3 b - e3 0 1").getD Board.new_empty_board

/-- Board with halfmove clock 3 and a quiet white pawn push available. -/
def pawnClockBoard : Board :=
  (Board.from_fen "4k3/8/8/8/8/8/4P3/4K3 w - - 3 1").getD Board.new_empty_board

/-- Syntactically valid board with no king of either colour. -/
def queenOnlyBoard : Board :=
  (Board.from_fen "8/8/8/8/8/8/8/Q7 w - - 0 1").getD Board.new_empty_board

/-- Board on which white king-side castling is legal. -/
def wkBoard : Board :=
  (Board.from_fen "4k3/8/8/8/8/8/8/4K2R w K - 0 1").getD Board.new_empty_board

/-- The legal moves of `wkBoard`. -/
def wkMoves : List Move := wkBoard.get_moves.toOption.getD []

/-- Not a castle move. -/
def non_castle (mv : Move) : Prop :=
  mv.get_kind ≠ MoveKind.KingCastle ∧ mv.get_kind ≠ MoveKind.QueenCastle

/-! ## Claims -/

/-- C1: the claim states that perft from the starting position is 20 at
depth 1 (400, 8902, 197281, 4865609 at depths 2-5).  On this source it is
not: already at depth 1 the recursion aborts, because generating the
moves of the knight on b1 (index 1) evaluates
`Case(1).get_neighbour(Cav11, 1) = Case(1 - 10)`, a usize underflow.
The node count is therefore never produced at any depth. -/
theorem sub_perft_start_position_aborts :
    (Board.from_fen startFen).map (Board.sub_perft 1) = some (.error .aborted) := by
  decide

/-- C2: the claim states that `apply_move` drops castling rights on king
moves, rook moves from the corner squares, and captures on the corner
squares.  `Board::apply_move` never touches the `castle` field: after the
legal king move e1-e2 on `rookKingBoard` all four rights are still set,
where the claim requires White's two rights to be false. -/
theorem apply_move_keeps_castle_rights :
    Board.from_fen "r3k2r/8/8/8/8/8/8/R3K2R w KQkq - 0 1" = some rookKingBoard ∧
    rookKingBoard.getCase ⟨4⟩ = .ok (some ⟨.King, .White⟩) ∧
    Move.new ⟨4⟩ ⟨12⟩ MoveKind.Quiet ∈ rookKingBoard.get_moves.toOption.getD [] ∧
    (rookKingBoard.apply_move (Move.new ⟨4⟩ ⟨12⟩ MoveKind.Quiet)).map Board.castle
      = .ok ⟨true, true, true, true⟩ := by
  decide

/-- C3: the claim states that `apply_move` leaves `en_passant` set exactly
after a `DoublePawnPush` and `None` after every other kind.  The source
never clears the field: after the legal quiet king move e8-d8 on
`epBoard` the stale target e3 (index 20) survives, and the resulting
board has White to move with the target on line 2 (rank 3), which also
violates the claimed rank-3/rank-6 correlation with the side to move. -/
theorem apply_move_keeps_stale_en_passant :
    Board.from_fen "4k3/8/8/8/8/8/4P3/4K3 b - e3 0 1" = some epBoard ∧
    Move.new ⟨60⟩ ⟨59⟩ MoveKind.Quiet ∈ epBoard.get_moves.toOption.getD [] ∧
    (epBoard.apply_move (Move.new ⟨60⟩ ⟨59⟩ MoveKind.Quiet)).map Board.en_passant
      = .ok (some ⟨20⟩) ∧
    (epBoard.apply_move (Move.new ⟨60⟩ ⟨59⟩ MoveKind.Quiet)).map Board.side
      = .ok Color.White ∧
    (Case.mk 20).get_line = 2 := by
  decide

/-- C4: the claim states that the halfmove clock resets to 0 exactly on a
capture or a pawn move.  The source resets it only when
`mv.is_capture()`: the legal quiet pawn push e2-e3 on `pawnClockBoard`
(whose clock is 3) yields clock 4, where the claim requires 0. -/
theorem halfmove_clock_not_reset_on_pawn_move :
    Board.from_fen "4k3/8/8/8/8/8/4P3/4K3 w - - 3 1" = some pawnClockBoard ∧
    pawnClockBoard.getCase ⟨12⟩ = .ok (some ⟨.Pawn, .White⟩) ∧
    Move.new ⟨12⟩ ⟨20⟩ MoveKind.Quiet ∈ pawnClockBoard.get_moves.toOption.getD [] ∧
    (pawnClockBoard.apply_move (Move.new ⟨12⟩ ⟨20⟩ MoveKind.Quiet)).map Board.halfmove
      = .ok 4 := by
  decide

/-- C5: the claim states that parse-then-emit is byte-identical on
canonical FEN strings, with the castling field a `KQkq`-subset (hyphen
only when empty).  `Castle`'s `Display` emits the subset only when ALL
four rights are set: the canonical string with castling field `K`
re-emits with `-`, so the round trip is not the identity. -/
theorem fen_round_trip_loses_castling :
    (Board.from_fen "4k3/8/8/8/8/8/8/4K2R w K - 0 1").map Board.to_fen
      = some "4k3/8/8/8/8/8/8/4K2R w - - 0 1" ∧
    ("4k3/8/8/8/8/8/8/4K2R w - - 0 1" : String)
      ≠ "4k3/8/8/8/8/8/8/4K2R w K - 0 1" := by
  decide

/-- C6: the claim states that `get_neighbour` applies the direction's
`(dline, dcolumn)` delta and returns `Some` exactly when the displaced
rank and file are both in [0,7], the knight directions realising the
eight offsets `(±1,±2)`/`(±2,±1)`.  The source's knight arms violate all
of this: from a7 (index 48) `Cav1` returns the off-board index 65 (line
8) instead of `None`; from g1 (index 6) `Cav2` wraps to a3 (index 16)
although the `(+1,+2)` displacement leaves the board; from c3 (index 18)
`Cav10` lands on a2 (index 8), a `(-1,-2)` displacement instead of
`(+1,-2)` (a4, index 24); and from b1 (index 1) `Cav11` aborts on the
usize underflow `1 - 10`. -/
theorem get_neighbour_knight_directions_wrong :
    Case.get_neighbour ⟨48⟩ Dir.Cav1 1 = .ok (some ⟨65⟩) ∧
    (Case.mk 65).get_line = 8 ∧
    Case.get_neighbour ⟨6⟩ Dir.Cav2 1 = .ok (some ⟨16⟩) ∧
    Case.get_neighbour ⟨18⟩ Dir.Cav10 1 = .ok (some ⟨8⟩) ∧
    Case.get_neighbour ⟨1⟩ Dir.Cav11 1 = .error .aborted := by
  decide

/-- C7: the claim states that `get_moves` returns a (possibly empty) list
for every syntactically valid board, including boards lacking a king.
On `queenOnlyBoard` (a parsed FEN with a lone white queen) the legality
filter applies a move and then `get_kind_pos` panics with "king not
found"; `get_moves` aborts instead of returning a list. -/
theorem get_moves_aborts_without_king :
    (Board.from_fen "8/8/8/8/8/8/8/Q7 w - - 0 1").map Board.get_moves
      = some (.error .aborted) := by
  decide

/-- C9: the claim states that `Move::from_str` returns a
`MoveParseError` result, without panicking, exactly on strings that are
not 4 or 5 characters of square-square-promotion shape.  The source
byte-slices `s[0..2]` and `s[2..4]` unchecked, so the 2-character string
"e2" (and the empty string) abort instead of returning an error, while
the 6-character string "e2e4xx" is accepted as a quiet move instead of
being rejected. -/
theorem move_from_str_panics_on_short_input :
    Move.from_str "e2" = .error .aborted ∧
    Move.from_str "" = .error .aborted ∧
    Move.from_str "e2e4xx" = .ok (.ok (Move.new ⟨12⟩ ⟨28⟩ MoveKind.Quiet)) := by
  decide

/-- C10: packing a `MoveKind` into `MoveFlags` (`From<MoveKind>`) and
unpacking it back (`Into<MoveKind>`, read via `Move::get_kind`) is the
identity on all 14 kinds, for every pair of squares. -/
theorem move_new_get_kind_roundtrip (f t : Case) (k : MoveKind) :
    (Move.new f t k).get_kind = k := by
  cases k <;> rfl

/-- Moves surviving the legality filter come from the input list. -/
theorem filter_legal_mem {b : Board} {l r : List Move} {mv : Move}
    (h : b.filter_legal l = .ok r) (hm : mv ∈ r) : mv ∈ l := by
  induction l generalizing r with
  | nil =>
    simp only [Board.filter_legal] at h
    injection h with h
    subst h
    simp at hm
  | cons a t ih =>
    simp only [Board.filter_legal] at h
    cases hleg : b.is_move_legal a with
    | error e => rw [hleg] at h; cases h
    | ok keep =>
      rw [hleg] at h
      cases hrest : b.filter_legal t with
      | error e => rw [hrest] at h; cases h
      | ok l2 =>
        rw [hrest] at h
        injection h with h
        subst h
        by_cases hk : keep = true
        · simp [hk] at hm
          rcases hm with hm | hm
          · simp [hm]
          · exact List.mem_cons_of_mem _ (ih hrest hm)
        · simp [hk] at hm
          exact List.mem_cons_of_mem _ (ih hrest hm)

/-- Moves in the pseudo-legal scan come from some case's move list. -/
theorem pseudo_aux_mem {b : Board} {i n : Nat} {r : List Move} {mv : Move}
    (h : b.pseudo_aux i n = .ok r) (hm : mv ∈ r) :
    ∃ j l, b.get_moves_for_case ⟨j⟩ = .ok (some l) ∧ mv ∈ l := by
  induction n generalizing i r with
  | zero =>
    simp only [Board.pseudo_aux] at h
    injection h with h
    subst h
    simp at hm
  | succ n ih =>
    simp only [Board.pseudo_aux] at h
    cases hc : b.get_moves_for_case ⟨i⟩ with
    | error e => rw [hc] at h; cases h
    | ok o =>
      rw [hc] at h
      cases o with
      | none => exact ih h hm
      | some l =>
        cases hrest : b.pseudo_aux (i + 1) n with
        | error e => rw [hrest] at h; cases h
        | ok rest =>
          rw [hrest] at h
          injection h with h
          subst h
          rcases List.mem_append.mp hm with hm | hm
          · exact ⟨i, l, hc, hm⟩
          · exact ih hrest hm

/-- `Move::new` then `Move::get_kind` is the identity (helper shared by
several proofs). -/
theorem get_kind_new (f t : Case) (k : MoveKind) : (Move.new f t k).get_kind = k := by
  cases k <;> rfl

/-- Ray walks emit only `Quiet` and `SimpleCapture` moves. -/
theorem all_moves_in_dir_aux_kinds {b : Board} {f : Case} {d : Dir} {m dist fuel : Nat}
    {l : List Move} {mv : Move}
    (h : b.all_moves_in_dir_aux f d m dist fuel = .ok l) (hm : mv ∈ l) :
    mv.get_kind = MoveKind.Quiet ∨ mv.get_kind = MoveKind.SimpleCapture := by
  induction fuel generalizing dist l with
  | zero =>
    simp only [Board.all_moves_in_dir_aux] at h
    injection h with h; subst h; simp at hm
  | succ fuel ih =>
    simp only [Board.all_moves_in_dir_aux] at h
    split at h
    · cases h
    · injection h with h; subst h; simp at hm
    · split at h
      · cases h
      · split at h
        · injection h with h; subst h
          simp at hm; subst hm
          right; exact get_kind_new _ _ _
        · injection h with h; subst h; simp at hm
      · split at h
        · injection h with h; subst h
          simp at hm; subst hm
          left; exact get_kind_new _ _ _
        · split at h
          · cases h
          · rename_i hrest
            injection h with h; subst h
            rcases List.mem_cons.mp hm with hm | hm
            · subst hm; left; exact get_kind_new _ _ _
            · exact ih hrest hm

/-- `moves_for_dir` emits only `Quiet` and `SimpleCapture` moves. -/
theorem moves_for_dir_kinds {b : Board} {c : Case} {dirs : List Dir} {m : Nat}
    {l : List Move} {mv : Move}
    (h : b.moves_for_dir c dirs m = .ok l) (hm : mv ∈ l) :
    mv.get_kind = MoveKind.Quiet ∨ mv.get_kind = MoveKind.SimpleCapture := by
  induction dirs generalizing l with
  | nil =>
    simp only [Board.moves_for_dir] at h
    injection h with h; subst h; simp at hm
  | cons d rest ih =>
    simp only [Board.moves_for_dir] at h
    cases h1 : b.all_moves_in_dir c d m with
    | error e => rw [h1] at h; cases h
    | ok l1 =>
      rw [h1] at h
      cases h2 : b.moves_for_dir c rest m with
      | error e => rw [h2] at h; cases h
      | ok l2 =>
        rw [h2] at h
        injection h with h; subst h
        rcases List.mem_append.mp hm with hm | hm
        · exact all_moves_in_dir_aux_kinds h1 hm
        · exact ih h2 hm

/-- Pawn capture generation emits no castle moves. -/
theorem pawn_attack_side_kinds {b : Board} {c : Case} {d : Dir} {pl : Nat}
    {l : List Move} {mv : Move}
    (h : b.pawn_attack_side c d pl = .ok l) (hm : mv ∈ l) : non_castle mv := by
  simp only [Board.pawn_attack_side] at h
  split at h
  · cases h
  · injection h with h; subst h; simp at hm
  · split at h
    · cases h
    · injection h with h; subst h
      rcases List.mem_append.mp hm with hm | hm
      · split at hm
        · split at hm
          · simp at hm
            rcases hm with hm | hm | hm | hm <;>
              (subst hm; constructor <;> simp [get_kind_new])
          · simp at hm; subst hm
            constructor <;> simp [get_kind_new]
        · simp at hm
      · split at hm
        · split at hm
          · simp at hm; subst hm
            constructor <;> simp [get_kind_new]
          · simp at hm
        · simp at hm

/-- `pawn_attack_moves` emits no castle moves. -/
theorem pawn_attack_moves_kinds {b : Board} {c : Case} {l : List Move} {mv : Move}
    (h : b.pawn_attack_moves c = .ok l) (hm : mv ∈ l) : non_castle mv := by
  cases hside : b.side <;>
  · simp only [Board.pawn_attack_moves, hside] at h
    split at h
    · cases h
    · next l1 h1 =>
      split at h
      · cases h
      · next r h2 =>
        injection h with h; subst h
        rcases List.mem_append.mp hm with hm | hm
        · exact pawn_attack_side_kinds h1 hm
        · exact pawn_attack_side_kinds h2 hm

/-- `pawn_quiet_moves` emits no castle moves. -/
theorem pawn_quiet_moves_kinds {b : Board} {c : Case} {l : List Move} {mv : Move}
    (h : b.pawn_quiet_moves c = .ok l) (hm : mv ∈ l) : non_castle mv := by
  simp only [Board.pawn_quiet_moves] at h
  split at h
  · cases h
  · cases h
  · split at h
    · cases h
    · injection h with h; subst h; simp at hm
    · split at h
      · split at h
        · cases h
        · cases h
        · split at h
          · cases h
          · injection h with h; subst h
            rcases List.mem_append.mp hm with hm | hm
            · split at hm
              · simp at hm
                rcases hm with hm | hm | hm | hm <;>
                  (subst hm; constructor <;> simp [get_kind_new])
              · simp at hm; subst hm
                constructor <;> simp [get_kind_new]
            · simp at hm; subst hm
              constructor <;> simp [get_kind_new]
          · injection h with h; subst h
            split at hm
            · simp at hm
              rcases hm with hm | hm | hm | hm <;>
                (subst hm; constructor <;> simp [get_kind_new])
            · simp at hm; subst hm
              constructor <;> simp [get_kind_new]
      · injection h with h; subst h
        split at hm
        · simp at hm
          rcases hm with hm | hm | hm | hm <;>
            (subst hm; constructor <;> simp [get_kind_new])
        · simp at hm; subst hm
          constructor <;> simp [get_kind_new]

/-- Attack-move generation (any piece kind) emits no castle moves. -/
theorem get_attack_move_for_case_kinds {b : Board} {c : Case} {l : List Move} {mv : Move}
    (h : b.get_attack_move_for_case c = .ok (some l)) (hm : mv ∈ l) : non_castle mv := by
  simp only [Board.get_attack_move_for_case] at h
  split at h
  · cases h
  · simp at h
  · split at h
    · simp at h
    · split at h
      · cases h
      · rename_i moves heq
        injection h with h
        injection h with h
        subst h
        split at heq
        case _ => -- Queen
          rcases moves_for_dir_kinds heq hm with hk | hk <;> exact ⟨by simp [hk], by simp [hk]⟩
        case _ => -- Rook
          rcases moves_for_dir_kinds heq hm with hk | hk <;> exact ⟨by simp [hk], by simp [hk]⟩
        case _ => -- Bishop
          rcases moves_for_dir_kinds heq hm with hk | hk <;> exact ⟨by simp [hk], by simp [hk]⟩
        case _ => -- Knight
          rcases moves_for_dir_kinds heq hm with hk | hk <;> exact ⟨by simp [hk], by simp [hk]⟩
        case _ => -- King
          rcases moves_for_dir_kinds heq hm with hk | hk <;> exact ⟨by simp [hk], by simp [hk]⟩
        case _ => -- Pawn
          exact pawn_attack_moves_kinds heq hm

/-- Every move emitted by `castle_move` satisfies the claimed castling
preconditions: the matching right is set, the between-squares are empty,
and origin, transit and destination are outside the opponent's controlled
cases. -/
theorem castle_move_mem {b : Board} {l : List Move} {mv : Move}
    (h : b.castle_move = .ok l) (hm : mv ∈ l) :
    castle_preconditions b mv.get_kind = true := by
  cases hside : b.side <;>
  · simp only [Board.castle_move, hside] at h
    split at h
    · injection h with h; subst h; simp at hm
    · split at h
      any_goals cases h
      next ok1 ok2 oq1 oq2 oq3 hgk1 hgk2 hgq1 hgq2 hgq3 =>
        split at h
        · injection h with h; subst h; simp at hm
        · split at h
          · cases h
          · next attacked heq_att =>
            injection h with h; subst h
            rcases List.mem_append.mp hm with hm | hm
            · split at hm
              · next hcond =>
                simp only [List.mem_singleton] at hm
                subst hm
                obtain ⟨hck, h4, h5, h6⟩ := hcond
                simp only [Bool.and_eq_true] at hck
                obtain ⟨⟨hwk, h1n⟩, h2n⟩ := hck
                obtain rfl := Option.isNone_iff_eq_none.mp h1n
                obtain rfl := Option.isNone_iff_eq_none.mp h2n
                rw [get_kind_new]
                simp [castle_preconditions, hside, empty_cases, unattacked_by_opponent,
                  hgk1, hgk2, hwk, heq_att, h4, h5, h6]
              · simp at hm
            · split at hm
              · next hcond =>
                simp only [List.mem_singleton] at hm
                subst hm
                obtain ⟨hcq, h4, h5, h6⟩ := hcond
                simp only [Bool.and_eq_true] at hcq
                obtain ⟨⟨⟨hwq, n1⟩, n2⟩, n3⟩ := hcq
                obtain rfl := Option.isNone_iff_eq_none.mp n1
                obtain rfl := Option.isNone_iff_eq_none.mp n2
                obtain rfl := Option.isNone_iff_eq_none.mp n3
                rw [get_kind_new]
                simp [castle_preconditions, hside, empty_cases, unattacked_by_opponent,
                  hgq1, hgq2, hgq3, hwq, heq_att, h4, h5, h6]
              · simp at hm

/-- A castle-kind move in a case's pseudo-legal list must come from
`castle_move`, hence satisfies the castling preconditions. -/
theorem get_moves_for_case_castle {b : Board} {c : Case} {l : List Move} {mv : Move}
    (h : b.get_moves_for_case c = .ok (some l)) (hm : mv ∈ l)
    (hk : mv.get_kind = MoveKind.KingCastle ∨ mv.get_kind = MoveKind.QueenCastle) :
    castle_preconditions b mv.get_kind = true := by
  simp only [Board.get_moves_for_case] at h
  split at h
  · cases h
  · simp at h
  · split at h
    · simp at h
    · split at h
      · cases h
      · next moves hmoves =>
        split at h
        · cases h
        · cases h
        · next att hatt =>
          injection h with h
          injection h with h
          subst h
          rcases List.mem_append.mp hm with hm | hm
          · split at hmoves
            case _ => exact castle_move_mem hmoves hm
            case _ =>
              have hnc := pawn_quiet_moves_kinds hmoves hm
              rcases hk with hk | hk
              · exact absurd hk hnc.1
              · exact absurd hk hnc.2
            all_goals
              injection hmoves with hmoves
              subst hmoves
              simp at hm
          · have hnc := get_attack_move_for_case_kinds hatt hm
            rcases hk with hk | hk
            · exact absurd hk hnc.1
            · exact absurd hk hnc.2

/-- C8: a `KingCastle` or `QueenCastle` move in `legal_moves(b)` implies
that the corresponding castling right of the side to move is set, that
every square between the king and the rook is empty, and that the king's
origin, transit and destination squares are all outside the opponent's
controlled cases in `b`. -/
theorem castle_in_legal_moves_preconditions (b : Board) (mvs : List Move) (mv : Move)
    (h1 : b.get_moves = Except.ok mvs) (h2 : mv ∈ mvs)
    (h3 : mv.get_kind = MoveKind.KingCastle ∨ mv.get_kind = MoveKind.QueenCastle) :
    castle_preconditions b mv.get_kind = true := by
  simp only [Board.get_moves] at h1
  split at h1
  · cases h1
  · next ps hps =>
    have hmem := filter_legal_mem h1 h2
    obtain ⟨j, jl, hc, hml⟩ := pseudo_aux_mem hps hmem
    exact get_moves_for_case_castle hc hml h3

/-- Witness for C8: on `wkBoard` the white king-side castle e1-g1 is
among the legal moves, and the instantiated preconditions evaluate to
`true`. -/
theorem castle_in_legal_moves_preconditions_witness :
    castle_preconditions wkBoard (Move.new ⟨4⟩ ⟨6⟩ MoveKind.KingCastle).get_kind = true :=
  castle_in_legal_moves_preconditions wkBoard wkMoves (Move.new ⟨4⟩ ⟨6⟩ MoveKind.KingCastle)
    (by decide) (by decide) (by decide)
